import Mathlib

/-!
Verification of the perceptual-hash duplicate-detection and multi-stage
image-verification core of the repository.

A fingerprint is a sequence of hexadecimal nibbles (the JS code stores it as a
hex string and processes it one hex digit at a time via `parseInt(c, 16)`), so
it is embedded as `List (Fin 16)`.  Image decoding / perceptual hashing is
performed by external libraries (`sharp`, `image-hash`); every place where the
code obtains a hash from those libraries is abstracted as an `Except String Fp`
input (or a function producing one), faithfully threading the JS `try`/`catch`
structure of the source.
-/

/-- A fingerprint: a list of hexadecimal nibbles. -/
abbrev Fp := List (Fin 16)

/-- Fuel-structured version of the source's `countSetBits` loop
(`while (n) { count += n & 1; n >>= 1 }`).  The fuel only serves to make the
recursion structural; `fuel = n` always suffices since `n` halves each step. -/
def countSetBitsAux : Nat → Nat → Nat
  | 0, _ => 0
  | fuel + 1, n => if n = 0 then 0 else n % 2 + countSetBitsAux fuel (n / 2)

/-- Number of set bits of `n`, as computed by `ImageProcessor.countSetBits`
(and, equivalently, by `AdvancedImageMatcher`'s
`xor.toString(2).split('1').length - 1`, which also counts the 1-digits of the
binary representation). -/
def countSetBits (n : Nat) : Nat := countSetBitsAux n n

namespace ImageProcessor

/-- Source `ImageProcessor.hammingDistance`: throws
`Error('Hash lengths must be equal')` on a length mismatch, otherwise sums the
per-nibble popcount of the nibble-wise XOR. -/
def hammingDistance (hash1 hash2 : Fp) : Except String Nat :=
  if hash1.length ≠ hash2.length then .error "Hash lengths must be equal"
  else .ok ((List.zipWith (fun a b => countSetBits (a.val ^^^ b.val)) hash1 hash2).sum)

/-- Result record of `findBestMatch`: `{ objectId, distance, hash }`. -/
structure MatchResult where
  objectId : String
  distance : Nat
  hash : Fp
deriving DecidableEq, Repr

/-- Bundle returned by `generateRobustPHashFromBuffer`:
`{ primary, variants }` (variants keep only the hash of each `{type, hash}`
entry, which is all `findBestMatch` uses via `variants.map(v => v.hash)`). -/
structure HashBundle where
  primary : Fp
  variants : List Fp
deriving DecidableEq, Repr

/-- The all-zero 64-hex-digit hash that triggers the fallback path in
`generateRobustPHashFromBuffer`. -/
def allZeroHash : Fp := List.replicate 64 0

/-- Rotation angles used when building the variant bundle. -/
def variantRotationAngles : List Nat := [15, 30, 45, 90, 135, 180, 225, 270, 315, 345]

/-- Scale factors used when building the variant bundle. -/
def variantScaleFactors : List ℚ := [9/10, 11/10]

/-- Sequential hash generation over a list of transform parameters: the source
loops `for (let rotation of [...]) { ... await this.generatePHash(...) }` with
no per-iteration catch, so the first failure propagates. -/
def genHashes {α : Type} (gen : α → Except String Fp) : List α → Except String (List Fp)
  | [] => .ok []
  | a :: rest =>
    match gen a with
    | .error e => .error e
    | .ok h =>
      match genHashes gen rest with
      | .error e => .error e
      | .ok hs => .ok (h :: hs)

/-- Source `generateRobustPHashFromBuffer`, abstracted over the external
hashing calls: `originalHashE` is the hash of the normalized image,
`rotHashE` / `scaleHashE` produce the hash of each rotated / scaled variant,
and `fallbackHashE` is the sha256-derived hash built from metadata and channel
statistics.  The body runs inside one `try`; the `catch` logs and rethrows, so
any failure propagates to the caller.  If the original hash is all zeros the
fallback hash becomes the primary; the variants list (which always starts with
the original hash) is returned unchanged in both cases. -/
def generateRobustPHashFromBuffer (originalHashE : Except String Fp)
    (rotHashE : Nat → Except String Fp) (scaleHashE : ℚ → Except String Fp)
    (fallbackHashE : Except String Fp) : Except String HashBundle :=
  match originalHashE with
  | .error e => .error e
  | .ok originalHash =>
    match genHashes rotHashE variantRotationAngles with
    | .error e => .error e
    | .ok rotHashes =>
      match genHashes scaleHashE variantScaleFactors with
      | .error e => .error e
      | .ok scaleHashes =>
        let hashes := originalHash :: (rotHashes ++ scaleHashes)
        if originalHash = allZeroHash then
          match fallbackHashE with
          | .error e => .error e
          | .ok fallbackHash => .ok { primary := fallbackHash, variants := hashes }
        else
          .ok { primary := originalHash, variants := hashes }

/-- Inner loop of `findBestMatch` over the candidate's variant hashes
(`newHashes.slice(1)`, i.e. the bundle's variants) against one stored hash.
Each comparison sits in its own `try`/`catch`, so a failing comparison is
skipped.  An update happens when `distance < bestDistance && distance <=
threshold`. -/
def variantScan (eh : Fp) (oid : String) (t : Nat) :
    List Fp → WithTop Nat × Option MatchResult → WithTop Nat × Option MatchResult
  | [], acc => acc
  | v :: vs, (bestD, best) =>
    match hammingDistance v eh with
    | .error _ => variantScan eh oid t vs (bestD, best)
    | .ok d =>
      if (d : WithTop Nat) < bestD ∧ d ≤ t then
        variantScan eh oid t vs ((d : WithTop Nat), some ⟨oid, d, eh⟩)
      else
        variantScan eh oid t vs (bestD, best)

/-- Main loop of `findBestMatch` over the store entries.  `bestD` starts at
`Infinity` (modelled as `⊤ : WithTop Nat`).  The primary comparison is not
individually caught: a throw there propagates to the outer catch.  The variant
comparisons run only when `primaryDistance > threshold && threshold <= 3`. -/
def fbmLoop (primary : Fp) (variants : List Fp) (t : Nat) :
    List (Fp × String) → WithTop Nat → Option MatchResult →
      Except String (Option MatchResult)
  | [], _, best => .ok best
  | (eh, oid) :: rest, bestD, best =>
    match hammingDistance primary eh with
    | .error e => .error e
    | .ok d0 =>
      let bestD1 := if d0 ≤ t ∧ (d0 : WithTop Nat) < bestD then (d0 : WithTop Nat) else bestD
      let best1 := if d0 ≤ t ∧ (d0 : WithTop Nat) < bestD then some ⟨oid, d0, eh⟩ else best
      if t < d0 ∧ t ≤ 3 then
        let s := variantScan eh oid t variants (bestD1, best1)
        fbmLoop primary variants t rest s.1 s.2
      else
        fbmLoop primary variants t rest bestD1 best1

/-- Source `findBestMatch`: generates the robust hash bundle (abstracted as
`bundleE`), scans the store, and — crucially — catches every error and returns
`null`, so a failed hash generation or a primary-comparison throw yields
`none` exactly like a no-match. -/
def findBestMatch (bundleE : Except String HashBundle)
    (store : List (Fp × String)) (t : Nat) : Option MatchResult :=
  match bundleE with
  | .error _ => none
  | .ok b =>
    match fbmLoop b.primary b.variants t store ⊤ none with
    | .error _ => none
    | .ok r => r

/-- A single fingerprint comparison performed by `findBestMatch`:
either candidate-primary vs stored, or candidate-variant vs stored. -/
inductive CompEvent where
  | primaryCmp : Fp → Fp → CompEvent
  | variantCmp : Fp → Fp → CompEvent
deriving DecidableEq, Repr

/-- Trace of the comparisons `findBestMatch`'s loop performs, in order.  For
each store entry the primary comparison always happens; if it throws, the
whole loop aborts (outer catch), so later entries are not compared.  Variant
comparisons happen for every variant exactly when
`primaryDistance > threshold && threshold <= 3`. -/
def fbmTrace (primary : Fp) (variants : List Fp) (t : Nat) :
    List (Fp × String) → List CompEvent
  | [] => []
  | (eh, _) :: rest =>
    CompEvent.primaryCmp primary eh ::
      match hammingDistance primary eh with
      | .error _ => []
      | .ok d0 =>
        (if t < d0 ∧ t ≤ 3 then variants.map (fun v => CompEvent.variantCmp v eh) else [])
          ++ fbmTrace primary variants t rest

end ImageProcessor

namespace AdvancedImageMatcher

/-- Source `AdvancedImageMatcher.hammingDistance`: on a length mismatch it
returns `Infinity` (no throw); otherwise it sums the per-nibble popcount of
the nibble-wise XOR (counting the 1-digits of `xor.toString(2)`). -/
def hammingDistance (hash1 hash2 : Fp) : WithTop Nat :=
  if hash1.length ≠ hash2.length then ⊤
  else ((List.zipWith (fun a b => countSetBits (a.val ^^^ b.val)) hash1 hash2).sum : Nat)

/-- Report of a pHash-based stage (`stage1_phash` / `stage2_rotation`). -/
structure PHashStage where
  matched : Bool
  distance : WithTop Nat
  confidence : ℚ
deriving DecidableEq, Repr

/-- Report of a similarity-based stage (`stage3_color` / `stage4_edge`). -/
structure SimilarityStage where
  matched : Bool
  similarity : ℚ
  confidence : ℚ
deriving DecidableEq, Repr

/-- Overall verdict `{ matched, confidence, method }`; `method` is the JS
string (`"direct_phash"`, `"rotation_phash"` or `"none"`). -/
structure OverallResult where
  matched : Bool
  confidence : ℚ
  method : String
deriving DecidableEq, Repr

/-- Full report returned by `verifyImageMatch`. -/
structure VerifyResults where
  stage1_phash : PHashStage
  stage2_rotation : PHashStage
  stage3_color : SimilarityStage
  stage4_edge : SimilarityStage
  overall : OverallResult
deriving DecidableEq, Repr

/-- The `results` object as initialized at the top of `verifyImageMatch`. -/
def initResults : VerifyResults where
  stage1_phash := { matched := false, distance := ⊤, confidence := 0 }
  stage2_rotation := { matched := false, distance := ⊤, confidence := 0 }
  stage3_color := { matched := false, similarity := 1, confidence := 0 }
  stage4_edge := { matched := false, similarity := 1, confidence := 0 }
  overall := { matched := false, confidence := 0, method := "none" }

/-- Rotation probe angles of stage 2. -/
def rotationAngles : List Nat := [5, 10, 15, 30, 45, 90, 180, 270, 345, 350, 355]

/-- Stage 1 scan: compare the input hash against each stored hash in order; at
the first distance `≤ 3` return the matched stage-1 report and overall verdict
(the early `return results`), otherwise track the running minimum distance. -/
def stage1Scan (inputHash : Fp) :
    List Fp → WithTop Nat → Sum (PHashStage × OverallResult) (WithTop Nat)
  | [], minD => .inr minD
  | storedHash :: rest, minD =>
    let d := hammingDistance inputHash storedHash
    if d ≤ 3 then
      .inl ({ matched := true, distance := d, confidence := 95/100 },
            { matched := true, confidence := 95/100, method := "direct_phash" })
    else stage1Scan inputHash rest (min minD d)

/-- Stage 2 inner scan for one rotated hash: first stored hash at distance
`≤ 8` wins; otherwise the running minimum over all angle/record pairs is
updated. -/
def stage2Scan (rotatedHash : Fp) :
    List Fp → WithTop Nat → Sum (PHashStage × OverallResult) (WithTop Nat)
  | [], minD => .inr minD
  | storedHash :: rest, minD =>
    let d := hammingDistance rotatedHash storedHash
    if d ≤ 8 then
      .inl ({ matched := true, distance := d, confidence := 85/100 },
            { matched := true, confidence := 85/100, method := "rotation_phash" })
    else stage2Scan rotatedHash rest (min minD d)

/-- Stage 2 outer loop over the probe angles.  Computing the rotated hash can
throw (sharp rotate / imageHash); the outer catch then returns the results
accumulated so far, which has the same unmatched shape as falling through. -/
def stage2Angles (rotHashE : Nat → Except String Fp) (storedHashes : List Fp) :
    List Nat → WithTop Nat → Sum (PHashStage × OverallResult) (WithTop Nat)
  | [], minD => .inr minD
  | angle :: rest, minD =>
    match rotHashE angle with
    | .error _ => .inr minD
    | .ok rotatedHash =>
      match stage2Scan rotatedHash storedHashes minD with
      | .inl hit => .inl hit
      | .inr minD2 => stage2Angles rotHashE storedHashes rest minD2

/-- Source `verifyImageMatch`, abstracted over the external hashing calls:
`inputHashE` is the hash of the normalized input image (an error here stands
for a failed canonicalization/hash, caught by the outer catch which returns
the untouched initial `results`), `rotHashE` produces each rotated variant's
hash.  Stages 3 and 4 only compute auxiliary signals and are skipped (no
stored histograms/edge hashes exist), never touching their report fields. -/
def verifyImageMatch (inputHashE : Except String Fp)
    (rotHashE : Nat → Except String Fp) (storedHashes : List Fp) : VerifyResults :=
  match inputHashE with
  | .error _ => initResults
  | .ok inputHash =>
    match stage1Scan inputHash storedHashes ⊤ with
    | .inl (s1, ov) => { initResults with stage1_phash := s1, overall := ov }
    | .inr minD1 =>
      let base : VerifyResults :=
        { initResults with
            stage1_phash := { matched := false, distance := minD1, confidence := 0 } }
      match stage2Angles rotHashE storedHashes rotationAngles ⊤ with
      | .inl (s2, ov) => { base with stage2_rotation := s2, overall := ov }
      | .inr minD2 =>
        { base with
            stage2_rotation := { matched := false, distance := minD2, confidence := 0 } }

/-- Trace of the angles for which `verifyImageMatch` attempts to compute a
rotated fingerprint (the `sharp(...).rotate(angle)` + `imageHashAsync` calls
at the top of each stage-2 iteration). -/
def stage2AnglesTrace (rotHashE : Nat → Except String Fp) (storedHashes : List Fp) :
    List Nat → WithTop Nat → List Nat
  | [], _ => []
  | angle :: rest, minD =>
    angle ::
      match rotHashE angle with
      | .error _ => []
      | .ok rotatedHash =>
        match stage2Scan rotatedHash storedHashes minD with
        | .inl _ => []
        | .inr minD2 => stage2AnglesTrace rotHashE storedHashes rest minD2

/-- Angles whose rotated fingerprint `verifyImageMatch` computes on a given
run. -/
def verifyRotationTrace (inputHashE : Except String Fp)
    (rotHashE : Nat → Except String Fp) (storedHashes : List Fp) : List Nat :=
  match inputHashE with
  | .error _ => []
  | .ok inputHash =>
    match stage1Scan inputHash storedHashes ⊤ with
    | .inl _ => []
    | .inr _ => stage2AnglesTrace rotHashE storedHashes rotationAngles ⊤

/-- Model of the `/api/verify` route's store handling: with an empty hash
database it responds `verified:false` immediately and never invokes
`verifyImageMatch` (second component `none`); otherwise it runs the matcher
and reports its overall verdict (the matched branch additionally resolves the
record id, which is outside this core). -/
def apiVerify (storedHashes : List Fp) (inputHashE : Except String Fp)
    (rotHashE : Nat → Except String Fp) : Bool × Option VerifyResults :=
  if storedHashes.isEmpty then (false, none)
  else
    let r := verifyImageMatch inputHashE rotHashE storedHashes
    (r.overall.matched, some r)

end AdvancedImageMatcher

/-- Total per-nibble popcount sum of two fingerprints (the value both
`hammingDistance` implementations compute once the length guard has passed). -/
def hammingSum (a b : Fp) : Nat :=
  (List.zipWith (fun x y => countSetBits (x.val ^^^ y.val)) a b).sum

/-- Number of differing bit positions between two fingerprints, the
specification's characterization of Hamming distance: per hex digit, the
count of bit indices `j < 4` on which the digits differ, summed. -/
def bitDiffCount (a b : Fp) : Nat :=
  (List.zipWith
    (fun x y => ((Finset.range 4).filter fun j => x.val.testBit j ≠ y.val.testBit j).card)
    a b).sum

/-- Concrete stored fingerprint used in the scenario tests (spec: `h1`). -/
def h1 : Fp := List.replicate 64 0

/-- Concrete query primary fingerprint at Hamming distance 2 from `h1`
(first nibble `0x3` = two set bits). -/
def queryPrimary : Fp := (3 : Fin 16) :: List.replicate 63 0

/-- A variant fingerprint far (distance 256) from `h1`, so that variant
comparisons cannot interfere with the scenario outcomes. -/
def farVariant : Fp := List.replicate 64 (15 : Fin 16)

/-- Query bundle for the scenario: primary at distance 2 from `h1`, variants
(the original plus twelve transform variants) all far from `h1`. -/
def queryBundle : ImageProcessor.HashBundle :=
  { primary := queryPrimary, variants := queryPrimary :: List.replicate 12 farVariant }

/-- Primary fingerprint at Hamming distance 5 from `h1` (nibbles `0xf`, `0x1`). -/
def cexPrimary : Fp := (15 : Fin 16) :: (1 : Fin 16) :: List.replicate 62 0

/-- Variant fingerprint at Hamming distance 1 from `h1`. -/
def cexVariant : Fp := (1 : Fin 16) :: List.replicate 63 0

/-- Bundle whose primary is at distance 5 from the sole stored fingerprint
but one of whose variants is at distance 1. -/
def cexBundle : ImageProcessor.HashBundle :=
  { primary := cexPrimary, variants := [cexPrimary, cexVariant] }

/-- Stands for a sha256-derived fallback fingerprint. -/
def fallbackFp : Fp := (1 : Fin 16) :: List.replicate 63 (2 : Fin 16)

/-- Stands for a genuine (perceptual) fingerprint stored in the database. -/
def genuineFp : Fp := (4 : Fin 16) :: List.replicate 63 0

/-- The bundle produced by the fallback path of
`generateRobustPHashFromBuffer` when every variant hash is the all-zero hash:
the fallback becomes the primary, the thirteen all-zero hashes stay as
variants. -/
def c7Bundle : ImageProcessor.HashBundle :=
  { primary := fallbackFp, variants := List.replicate 13 ImageProcessor.allZeroHash }

/-- A 64-hex-digit fingerprint of all zeros (first five-nibble example). -/
def fiveNibbleA : Fp := List.replicate 64 0

/-- A 64-hex-digit fingerprint differing from `fiveNibbleA` in exactly 5
nibbles (positions 0-4: `1,2,4,8,1`) by exactly 1 bit each. -/
def fiveNibbleB : Fp :=
  (1 : Fin 16) :: (2 : Fin 16) :: (4 : Fin 16) :: (8 : Fin 16) :: (1 : Fin 16) ::
    List.replicate 59 0

/-! Basic lemmas about the distance computations. -/

lemma countSetBits_nibble_eq : ∀ x y : Fin 16,
    countSetBits (x.val ^^^ y.val) =
      ((Finset.range 4).filter fun j => x.val.testBit j ≠ y.val.testBit j).card := by
  decide

lemma countSetBits_nibble_comm : ∀ x y : Fin 16,
    countSetBits (x.val ^^^ y.val) = countSetBits (y.val ^^^ x.val) := by
  decide

lemma countSetBits_nibble_eq_zero_iff : ∀ x y : Fin 16,
    (countSetBits (x.val ^^^ y.val) = 0 ↔ x = y) := by
  decide

lemma countSetBits_nibble_le_four : ∀ x y : Fin 16,
    countSetBits (x.val ^^^ y.val) ≤ 4 := by
  decide

lemma hammingSum_eq_bitDiffCount : ∀ a b : Fp, hammingSum a b = bitDiffCount a b := by
  intro a
  induction a with
  | nil => intro b; rfl
  | cons x xs ih =>
    intro b
    cases b with
    | nil => rfl
    | cons y ys =>
      simp only [hammingSum, bitDiffCount, List.zipWith_cons_cons, List.sum_cons]
      rw [countSetBits_nibble_eq]
      exact congrArg _ (ih ys)

lemma hammingSum_comm : ∀ a b : Fp, hammingSum a b = hammingSum b a := by
  intro a
  induction a with
  | nil => intro b; cases b <;> rfl
  | cons x xs ih =>
    intro b
    cases b with
    | nil => rfl
    | cons y ys =>
      simp only [hammingSum, List.zipWith_cons_cons, List.sum_cons]
      rw [countSetBits_nibble_comm]
      exact congrArg _ (ih ys)

lemma hammingSum_eq_zero_iff :
    ∀ a b : Fp, a.length = b.length → (hammingSum a b = 0 ↔ a = b) := by
  intro a
  induction a with
  | nil =>
    intro b hb
    cases b with
    | nil => simp [hammingSum]
    | cons y ys => simp at hb
  | cons x xs ih =>
    intro b hb
    cases b with
    | nil => simp at hb
    | cons y ys =>
      simp only [List.length_cons, Nat.succ.injEq] at hb
      simp only [hammingSum, List.zipWith_cons_cons, List.sum_cons] at *
      rw [Nat.add_eq_zero]
      constructor
      · rintro ⟨h0, hrest⟩
        have hx : x = y := (countSetBits_nibble_eq_zero_iff x y).mp h0
        have hxs : xs = ys := (ih ys hb).mp hrest
        rw [hx, hxs]
      · intro h
        injection h with hx hxs
        exact ⟨(countSetBits_nibble_eq_zero_iff x y).mpr hx, (ih ys hb).mpr hxs⟩

lemma hammingSum_le_four_mul :
    ∀ a b : Fp, a.length = b.length → hammingSum a b ≤ 4 * a.length := by
  intro a
  induction a with
  | nil => intro b hb; simp [hammingSum]
  | cons x xs ih =>
    intro b hb
    cases b with
    | nil => simp at hb
    | cons y ys =>
      simp only [List.length_cons, Nat.succ.injEq] at hb
      simp only [hammingSum, List.zipWith_cons_cons, List.sum_cons, List.length_cons]
      have h1 := countSetBits_nibble_le_four x y
      have h2 := ih ys hb
      simp only [hammingSum] at h2
      omega

lemma hammingDistance_ok_of_len {a b : Fp} (h : a.length = b.length) :
    ImageProcessor.hammingDistance a b = .ok (hammingSum a b) := by
  simp [ImageProcessor.hammingDistance, h, hammingSum]

lemma hammingDistance_ok_iff {a b : Fp} {d : Nat} :
    ImageProcessor.hammingDistance a b = .ok d ↔ a.length = b.length ∧ d = hammingSum a b := by
  unfold ImageProcessor.hammingDistance
  by_cases h : a.length = b.length
  · simp [h, hammingSum, eq_comm]
  · simp [h]

lemma aim_hammingDistance_of_len {a b : Fp} (h : a.length = b.length) :
    AdvancedImageMatcher.hammingDistance a b = (hammingSum a b : WithTop Nat) := by
  simp [AdvancedImageMatcher.hammingDistance, h, hammingSum]

/-! Lemmas about `findBestMatch`'s loop. -/

namespace ImageProcessor

lemma fbmLoop_no_update (primary : Fp) (variants : List Fp) (t : Nat) (ht : 3 < t) :
    ∀ (store : List (Fp × String)) (bestD : WithTop Nat) (best : Option MatchResult),
      (∀ q ∈ store, (Prod.fst q).length = primary.length) →
      (∀ q ∈ store, hammingSum primary (Prod.fst q) ≤ t →
        ¬((hammingSum primary (Prod.fst q) : WithTop Nat) < bestD)) →
      fbmLoop primary variants t store bestD best = .ok best := by
  intro store
  induction store with
  | nil => intro bestD best _ _; rfl
  | cons q rest ihs =>
    obtain ⟨eh, oid⟩ := q
    intro bestD best hlen hno
    have hl : eh.length = primary.length := hlen (eh, oid) (List.mem_cons_self _ _)
    have hd : hammingDistance primary eh = .ok (hammingSum primary eh) :=
      hammingDistance_ok_of_len hl.symm
    have hc1 : ¬(hammingSum primary eh ≤ t ∧
        ((hammingSum primary eh : WithTop Nat) < bestD)) := by
      rintro ⟨ha, hb⟩
      exact hno (eh, oid) (List.mem_cons_self _ _) ha hb
    have hc2 : ¬(t < hammingSum primary eh ∧ t ≤ 3) := by
      rintro ⟨_, hb⟩
      omega
    simp only [fbmLoop, hd, if_neg hc1, if_neg hc2]
    exact ihs bestD best (fun p hp => hlen p (List.mem_cons_of_mem _ hp))
      (fun p hp => hno p (List.mem_cons_of_mem _ hp))

lemma fbmLoop_finds (primary : Fp) (variants : List Fp) (t : Nat) (ht : 3 < t)
    (eh : Fp) (oid : String) (post : List (Fp × String))
    (hle : eh.length = primary.length)
    (hdt : hammingSum primary eh ≤ t)
    (hlenpost : ∀ q ∈ post, (Prod.fst q).length = primary.length)
    (hpost : ∀ q ∈ post, hammingSum primary (Prod.fst q) ≤ t →
      hammingSum primary eh ≤ hammingSum primary (Prod.fst q)) :
    ∀ (pre : List (Fp × String)) (bestD : WithTop Nat) (best : Option MatchResult),
      (∀ q ∈ pre, (Prod.fst q).length = primary.length) →
      (∀ q ∈ pre, hammingSum primary (Prod.fst q) ≤ t →
        hammingSum primary eh < hammingSum primary (Prod.fst q)) →
      ((hammingSum primary eh : WithTop Nat) < bestD) →
      fbmLoop primary variants t (pre ++ (eh, oid) :: post) bestD best =
        .ok (some ⟨oid, hammingSum primary eh, eh⟩) := by
  intro pre
  induction pre with
  | nil =>
    intro bestD best _ _ hbd
    have hd : hammingDistance primary eh = .ok (hammingSum primary eh) :=
      hammingDistance_ok_of_len hle.symm
    have hc1 : hammingSum primary eh ≤ t ∧
        ((hammingSum primary eh : WithTop Nat) < bestD) := ⟨hdt, hbd⟩
    have hc2 : ¬(t < hammingSum primary eh ∧ t ≤ 3) := by
      rintro ⟨_, hb⟩
      omega
    simp only [List.nil_append, fbmLoop, hd, if_pos hc1, if_neg hc2]
    exact fbmLoop_no_update primary variants t ht post _ _ hlenpost
      (fun q hq ha hlt =>
        absurd (WithTop.coe_lt_coe.mp hlt) (not_lt.mpr (hpost q hq ha)))
  | cons q pre2 ihs =>
    obtain ⟨qh, qo⟩ := q
    intro bestD best hlenpre hpre hbd
    have hl : qh.length = primary.length := hlenpre (qh, qo) (List.mem_cons_self _ _)
    have hd : hammingDistance primary qh = .ok (hammingSum primary qh) :=
      hammingDistance_ok_of_len hl.symm
    have hc2 : ¬(t < hammingSum primary qh ∧ t ≤ 3) := by
      rintro ⟨_, hb⟩
      omega
    have htail_len : ∀ p ∈ pre2, (Prod.fst p).length = primary.length :=
      fun p hp => hlenpre p (List.mem_cons_of_mem _ hp)
    have htail : ∀ p ∈ pre2, hammingSum primary (Prod.fst p) ≤ t →
        hammingSum primary eh < hammingSum primary (Prod.fst p) :=
      fun p hp => hpre p (List.mem_cons_of_mem _ hp)
    by_cases hc1 : hammingSum primary qh ≤ t ∧
        ((hammingSum primary qh : WithTop Nat) < bestD)
    · have hlt : hammingSum primary eh < hammingSum primary qh :=
        hpre (qh, qo) (List.mem_cons_self _ _) hc1.1
      simp only [List.cons_append, fbmLoop, hd, if_pos hc1, if_neg hc2]
      exact ihs _ _ htail_len htail (WithTop.coe_lt_coe.mpr hlt)
    · simp only [List.cons_append, fbmLoop, hd, if_neg hc1, if_neg hc2]
      exact ihs _ _ htail_len htail hbd

lemma fbmTrace_no_variant (primary : Fp) (variants : List Fp) (t : Nat) (ht : 3 < t) :
    ∀ (store : List (Fp × String)) (v h2 : Fp),
      CompEvent.variantCmp v h2 ∉ fbmTrace primary variants t store := by
  intro store
  induction store with
  | nil => intro v h2 hmem; simp [fbmTrace] at hmem
  | cons q rest ihs =>
    obtain ⟨eh, oid⟩ := q
    intro v h2 hmem
    cases hham : hammingDistance primary eh with
    | error e =>
      simp only [fbmTrace, hham, List.mem_cons, List.not_mem_nil] at hmem
      rcases hmem with h | h
      · exact CompEvent.noConfusion h
      · exact h
    | ok d0 =>
      have hc : ¬(t < d0 ∧ t ≤ 3) := by rintro ⟨_, hb⟩; omega
      simp only [fbmTrace, hham, if_neg hc, List.nil_append, List.mem_cons] at hmem
      rcases hmem with h | h
      · exact CompEvent.noConfusion h
      · exact ihs v h2 h

lemma fbmTrace_variant_mem (primary : Fp) (variants : List Fp) (t : Nat) :
    ∀ (store : List (Fp × String)) (v h2 : Fp),
      CompEvent.variantCmp v h2 ∈ fbmTrace primary variants t store →
      t ≤ 3 ∧ v ∈ variants ∧ ∃ oid d0, (h2, oid) ∈ store ∧
        hammingDistance primary h2 = .ok d0 ∧ t < d0 := by
  intro store
  induction store with
  | nil => intro v h2 hmem; simp [fbmTrace] at hmem
  | cons q rest ihs =>
    obtain ⟨eh, oid⟩ := q
    intro v h2 hmem
    cases hham : hammingDistance primary eh with
    | error e =>
      simp only [fbmTrace, hham, List.mem_cons, List.not_mem_nil] at hmem
      rcases hmem with h | h
      · exact absurd h (fun hh => CompEvent.noConfusion hh)
      · exact h.elim
    | ok d0 =>
      simp only [fbmTrace, hham, List.mem_cons, List.mem_append] at hmem
      rcases hmem with h | h | h
      · exact absurd h (fun hh => CompEvent.noConfusion hh)
      · by_cases hc : t < d0 ∧ t ≤ 3
        · rw [if_pos hc] at h
          obtain ⟨v2, hv2, hveq⟩ := List.mem_map.mp h
          obtain ⟨rfl, rfl⟩ : v2 = v ∧ eh = h2 := by
            injection hveq with a b
            exact ⟨a, b⟩
          exact ⟨hc.2, hv2, oid, d0, List.mem_cons_self _ _, hham, hc.1⟩
        · rw [if_neg hc] at h
          exact absurd h (List.not_mem_nil _)
      · obtain ⟨hle, hv, oid2, d2, hmem2, hham2, hlt2⟩ := ihs v h2 h
        exact ⟨hle, hv, oid2, d2, List.mem_cons_of_mem _ hmem2, hham2, hlt2⟩

lemma variantScan_update (eh : Fp) (oid : String) (t : Nat) :
    ∀ (variants : List Fp) (bestD : WithTop Nat) (best : Option MatchResult),
      variantScan eh oid t variants (bestD, best) = (bestD, best) ∨
      ∃ v ∈ variants, ∃ d, hammingDistance v eh = .ok d ∧ d ≤ t ∧
        ((d : WithTop Nat) < bestD) ∧
        variantScan eh oid t variants (bestD, best) = ((d : WithTop Nat), some ⟨oid, d, eh⟩) := by
  intro variants
  induction variants with
  | nil => intro bestD best; exact Or.inl rfl
  | cons v vs ihs =>
    intro bestD best
    cases hham : hammingDistance v eh with
    | error e =>
      rcases ihs bestD best with h | ⟨v2, hv2, d2, hh2, hd2, hlt2, heq2⟩
      · exact Or.inl (by simp only [variantScan, hham, h])
      · exact Or.inr ⟨v2, List.mem_cons_of_mem _ hv2, d2, hh2, hd2, hlt2,
          by simp only [variantScan, hham, heq2]⟩
    | ok d =>
      by_cases hc : ((d : WithTop Nat) < bestD) ∧ d ≤ t
      · rcases ihs (d : WithTop Nat) (some ⟨oid, d, eh⟩) with h | ⟨v2, hv2, d2, hh2, hd2, hlt2, heq2⟩
        · refine Or.inr ⟨v, List.mem_cons_self _ _, d, hham, hc.2, hc.1, ?_⟩
          simp only [variantScan, hham, if_pos hc, h]
        · refine Or.inr ⟨v2, List.mem_cons_of_mem _ hv2, d2, hh2, hd2,
            lt_trans hlt2 hc.1, ?_⟩
          simp only [variantScan, hham, if_pos hc, heq2]
      · rcases ihs bestD best with h | ⟨v2, hv2, d2, hh2, hd2, hlt2, heq2⟩
        · exact Or.inl (by simp only [variantScan, hham, if_neg hc, h])
        · exact Or.inr ⟨v2, List.mem_cons_of_mem _ hv2, d2, hh2, hd2, hlt2,
            by simp only [variantScan, hham, if_neg hc, heq2]⟩

lemma fbmTrace_compares_primary (primary : Fp) (variants : List Fp) (t : Nat) :
    ∀ (store : List (Fp × String)),
      (∀ q ∈ store, (Prod.fst q).length = primary.length) →
      ∀ g oid, (g, oid) ∈ store →
        CompEvent.primaryCmp primary g ∈ fbmTrace primary variants t store := by
  intro store
  induction store with
  | nil => intro _ g oid hmem; exact absurd hmem (List.not_mem_nil _)
  | cons q rest ihs =>
    obtain ⟨eh, oid0⟩ := q
    intro hlen g oid hmem
    have hl : eh.length = primary.length := hlen (eh, oid0) (List.mem_cons_self _ _)
    have hd : hammingDistance primary eh = .ok (hammingSum primary eh) :=
      hammingDistance_ok_of_len hl.symm
    rcases List.mem_cons.mp hmem with h | h
    · obtain ⟨rfl, rfl⟩ : g = eh ∧ oid = oid0 := by
        injection h with a b
        exact ⟨a, b⟩
      exact List.mem_cons_self _ _
    · have hrec := ihs (fun p hp => hlen p (List.mem_cons_of_mem _ hp)) g oid h
      simp only [fbmTrace, hd]
      exact List.mem_cons_of_mem _ (List.mem_append_right _ hrec)

end ImageProcessor

/-! Lemmas about the multi-stage verifier. -/

namespace AdvancedImageMatcher

lemma stage1Scan_inl (q : Fp) :
    ∀ (stored : List Fp) (minD : WithTop Nat) (s1 : PHashStage) (ov : OverallResult),
      stage1Scan q stored minD = .inl (s1, ov) →
      ∃ d, d ≤ 3 ∧ s1 = ⟨true, d, 95/100⟩ ∧
        ov = ⟨true, 95/100, "direct_phash"⟩ := by
  intro stored
  induction stored with
  | nil => intro minD s1 ov h; exact absurd h (by simp [stage1Scan])
  | cons s rest ihs =>
    intro minD s1 ov h
    by_cases hd : hammingDistance q s ≤ 3
    · simp only [stage1Scan, if_pos hd, Sum.inl.injEq, Prod.mk.injEq] at h
      exact ⟨hammingDistance q s, hd, h.1.symm, h.2.symm⟩
    · simp only [stage1Scan, if_neg hd] at h
      exact ihs _ s1 ov h

lemma stage2Scan_inl (q : Fp) :
    ∀ (stored : List Fp) (minD : WithTop Nat) (s2 : PHashStage) (ov : OverallResult),
      stage2Scan q stored minD = .inl (s2, ov) →
      ∃ d, d ≤ 8 ∧ s2 = ⟨true, d, 85/100⟩ ∧
        ov = ⟨true, 85/100, "rotation_phash"⟩ := by
  intro stored
  induction stored with
  | nil => intro minD s2 ov h; exact absurd h (by simp [stage2Scan])
  | cons s rest ihs =>
    intro minD s2 ov h
    by_cases hd : hammingDistance q s ≤ 8
    · simp only [stage2Scan, if_pos hd, Sum.inl.injEq, Prod.mk.injEq] at h
      exact ⟨hammingDistance q s, hd, h.1.symm, h.2.symm⟩
    · simp only [stage2Scan, if_neg hd] at h
      exact ihs _ s2 ov h

lemma stage2Angles_inl (f : Nat → Except String Fp) (stored : List Fp) :
    ∀ (angles : List Nat) (minD : WithTop Nat) (s2 : PHashStage) (ov : OverallResult),
      stage2Angles f stored angles minD = .inl (s2, ov) →
      ∃ d, d ≤ 8 ∧ s2 = ⟨true, d, 85/100⟩ ∧
        ov = ⟨true, 85/100, "rotation_phash"⟩ := by
  intro angles
  induction angles with
  | nil => intro minD s2 ov h; exact absurd h (by simp [stage2Angles])
  | cons a rest ihs =>
    intro minD s2 ov h
    cases hf : f a with
    | error e =>
      simp only [stage2Angles, hf] at h
      exact absurd h (by simp)
    | ok rh =>
      simp only [stage2Angles, hf] at h
      cases hs : stage2Scan rh stored minD with
      | inl hit =>
        rw [hs] at h
        injection h with h2
        obtain ⟨sa, sb⟩ := hit
        cases h2
        exact stage2Scan_inl rh stored minD s2 ov hs
      | inr m2 =>
        rw [hs] at h
        exact ihs m2 s2 ov h

lemma stage1Scan_hit (q h : Fp) (post : List Fp) (hhit : hammingDistance q h ≤ 3) :
    ∀ (pre : List Fp) (minD : WithTop Nat),
      (∀ h2 ∈ pre, ¬(hammingDistance q h2 ≤ 3)) →
      stage1Scan q (pre ++ h :: post) minD =
        .inl (⟨true, hammingDistance q h, 95/100⟩,
              ⟨true, 95/100, "direct_phash"⟩) := by
  intro pre
  induction pre with
  | nil =>
    intro minD _
    simp only [List.nil_append, stage1Scan, if_pos hhit]
  | cons p rest ihs =>
    intro minD hpre
    have hp : ¬(hammingDistance q p ≤ 3) := hpre p (List.mem_cons_self _ _)
    simp only [List.cons_append, stage1Scan, if_neg hp]
    exact ihs _ (fun h2 hh2 => hpre h2 (List.mem_cons_of_mem _ hh2))

lemma stage1Scan_allfail (q : Fp) :
    ∀ (stored : List Fp) (minD : WithTop Nat),
      (∀ h2 ∈ stored, ¬(hammingDistance q h2 ≤ 3)) →
      ∃ m, stage1Scan q stored minD = .inr m := by
  intro stored
  induction stored with
  | nil => intro minD _; exact ⟨minD, rfl⟩
  | cons s rest ihs =>
    intro minD hall
    have hs : ¬(hammingDistance q s ≤ 3) := hall s (List.mem_cons_self _ _)
    simp only [stage1Scan, if_neg hs]
    exact ihs _ (fun h2 hh2 => hall h2 (List.mem_cons_of_mem _ hh2))

lemma stage2Scan_hit (q h : Fp) (post : List Fp) (hhit : hammingDistance q h ≤ 8) :
    ∀ (pre : List Fp) (minD : WithTop Nat),
      (∀ h2 ∈ pre, ¬(hammingDistance q h2 ≤ 8)) →
      stage2Scan q (pre ++ h :: post) minD =
        .inl (⟨true, hammingDistance q h, 85/100⟩,
              ⟨true, 85/100, "rotation_phash"⟩) := by
  intro pre
  induction pre with
  | nil =>
    intro minD _
    simp only [List.nil_append, stage2Scan, if_pos hhit]
  | cons p rest ihs =>
    intro minD hpre
    have hp : ¬(hammingDistance q p ≤ 8) := hpre p (List.mem_cons_self _ _)
    simp only [List.cons_append, stage2Scan, if_neg hp]
    exact ihs _ (fun h2 hh2 => hpre h2 (List.mem_cons_of_mem _ hh2))

lemma stage2Scan_allfail (q : Fp) :
    ∀ (stored : List Fp) (minD : WithTop Nat),
      (∀ h2 ∈ stored, ¬(hammingDistance q h2 ≤ 8)) →
      ∃ m, stage2Scan q stored minD = .inr m := by
  intro stored
  induction stored with
  | nil => intro minD _; exact ⟨minD, rfl⟩
  | cons s rest ihs =>
    intro minD hall
    have hs : ¬(hammingDistance q s ≤ 8) := hall s (List.mem_cons_self _ _)
    simp only [stage2Scan, if_neg hs]
    exact ihs _ (fun h2 hh2 => hall h2 (List.mem_cons_of_mem _ hh2))

lemma stage2Angles_hit (f : Nat → Except String Fp) (stored : List Fp)
    (angle : Nat) (aPost : List Nat) (rh : Fp) (hPre hPost : List Fp) (h : Fp)
    (hf : f angle = .ok rh)
    (hsplit : stored = hPre ++ h :: hPost)
    (hpre8 : ∀ h2 ∈ hPre, ¬(hammingDistance rh h2 ≤ 8))
    (hhit : hammingDistance rh h ≤ 8) :
    ∀ (aPre : List Nat) (minD : WithTop Nat),
      (∀ a2 ∈ aPre, ∃ rh2, f a2 = .ok rh2 ∧ ∀ h2 ∈ stored, ¬(hammingDistance rh2 h2 ≤ 8)) →
      stage2Angles f stored (aPre ++ angle :: aPost) minD =
        .inl (⟨true, hammingDistance rh h, 85/100⟩,
              ⟨true, 85/100, "rotation_phash"⟩) := by
  intro aPre
  induction aPre with
  | nil =>
    intro minD _
    have := stage2Scan_hit rh h hPost hhit hPre minD hpre8
    simp only [List.nil_append, stage2Angles, hf, hsplit, this]
  | cons a2 rest ihs =>
    intro minD hskip
    obtain ⟨rh2, hf2, hall2⟩ := hskip a2 (List.mem_cons_self _ _)
    obtain ⟨m2, hm2⟩ := stage2Scan_allfail rh2 stored minD hall2
    simp only [List.cons_append, stage2Angles, hf2, hm2]
    exact ihs m2 (fun a3 ha3 => hskip a3 (List.mem_cons_of_mem _ ha3))

lemma stage2Angles_empty_store (f : Nat → Except String Fp) :
    ∀ (angles : List Nat) (minD : WithTop Nat),
      ∃ m, stage2Angles f [] angles minD = .inr m := by
  intro angles
  induction angles with
  | nil => intro minD; exact ⟨minD, rfl⟩
  | cons a rest ihs =>
    intro minD
    cases hf : f a with
    | error e => exact ⟨minD, by simp only [stage2Angles, hf]⟩
    | ok rh =>
      obtain ⟨m, hm⟩ := ihs minD
      exact ⟨m, by simp only [stage2Angles, hf, stage2Scan, hm]⟩

end AdvancedImageMatcher

namespace ImageProcessor

lemma genHashes_error {α : Type} (gen : α → Except String Fp) :
    ∀ (l : List α) (a : α), a ∈ l → ∀ (msg : String), gen a = .error msg →
      ∀ hs, genHashes gen l ≠ .ok hs := by
  intro l
  induction l with
  | nil => intro a ha; exact absurd ha (List.not_mem_nil _)
  | cons x rest ihs =>
    intro a ha msg herr hs hok
    cases hx : gen x with
    | error e =>
      simp only [genHashes, hx] at hok
      exact Except.noConfusion hok
    | ok hh =>
      rcases List.mem_cons.mp ha with rfl | ha2
      · rw [hx] at herr; exact Except.noConfusion herr
      · cases hrest : genHashes gen rest with
        | error e =>
          simp only [genHashes, hx, hrest] at hok
          exact Except.noConfusion hok
        | ok hs2 => exact ihs a ha2 msg herr hs2 hrest

end ImageProcessor

/-! Claim theorems. -/

/-- C4: for every two fingerprints of equal length, both `hammingDistance`
implementations compute exactly the number of differing bit positions
(nibble-wise XOR, popcount per nibble, summed); the distance is symmetric,
zero iff the fingerprints are bit-identical, and at most 4 times the length
in hex digits; and two 64-hex-digit fingerprints differing in exactly 5
nibbles by exactly 1 bit each have distance exactly 5. -/
theorem C4_hammingDistance_characterization :
    (∀ a b : Fp, a.length = b.length →
      ImageProcessor.hammingDistance a b = .ok (bitDiffCount a b) ∧
      AdvancedImageMatcher.hammingDistance a b = (bitDiffCount a b : WithTop Nat) ∧
      ImageProcessor.hammingDistance a b = ImageProcessor.hammingDistance b a ∧
      (ImageProcessor.hammingDistance a b = .ok 0 ↔ a = b) ∧
      bitDiffCount a b ≤ 4 * a.length) ∧
    ImageProcessor.hammingDistance fiveNibbleA fiveNibbleB = .ok 5 := by
  constructor
  · intro a b h
    refine ⟨?_, ?_, ?_, ?_, ?_⟩
    · rw [hammingDistance_ok_of_len h, hammingSum_eq_bitDiffCount]
    · rw [aim_hammingDistance_of_len h, hammingSum_eq_bitDiffCount]
    · rw [hammingDistance_ok_of_len h, hammingDistance_ok_of_len h.symm, hammingSum_comm]
    · rw [hammingDistance_ok_of_len h]
      simp only [Except.ok.injEq]
      exact hammingSum_eq_zero_iff a b h
    · rw [← hammingSum_eq_bitDiffCount]
      exact hammingSum_le_four_mul a b h
  · rfl

/-- Witness for C4 at a concrete pair of 64-nibble fingerprints. -/
theorem C4_witness :
    ImageProcessor.hammingDistance queryPrimary h1 = .ok (bitDiffCount queryPrimary h1) ∧
    AdvancedImageMatcher.hammingDistance queryPrimary h1 =
      (bitDiffCount queryPrimary h1 : WithTop Nat) ∧
    ImageProcessor.hammingDistance queryPrimary h1 =
      ImageProcessor.hammingDistance h1 queryPrimary ∧
    (ImageProcessor.hammingDistance queryPrimary h1 = .ok 0 ↔ queryPrimary = h1) ∧
    bitDiffCount queryPrimary h1 ≤ 4 * queryPrimary.length :=
  C4_hammingDistance_characterization.1 queryPrimary h1 rfl

/-- C5 counterexample: `AdvancedImageMatcher.hammingDistance` does not abort
on a length mismatch; it returns `Infinity`, and a verification against a
stored fingerprint of a different length therefore reports an ordinary
`overall.matched = false` rather than failing with `LengthMismatchError`. -/
theorem C5_counterexample :
    AdvancedImageMatcher.hammingDistance [0] [0, 0] = ⊤ ∧
    (AdvancedImageMatcher.verifyImageMatch (.ok [0]) (fun _ => .ok [0])
      [[0, 0]]).overall.matched = false :=
  ⟨rfl, rfl⟩

/-- C5 (amended): on a length mismatch, `ImageProcessor.hammingDistance`
throws (`Error('Hash lengths must be equal')`), but
`AdvancedImageMatcher.hammingDistance` instead returns `Infinity`, which
downstream comparisons treat as an ordinary non-match. -/
theorem C5_amended (a b : Fp) (h : a.length ≠ b.length) :
    ImageProcessor.hammingDistance a b = .error "Hash lengths must be equal" ∧
    AdvancedImageMatcher.hammingDistance a b = ⊤ := by
  constructor
  · simp [ImageProcessor.hammingDistance, h]
  · simp [AdvancedImageMatcher.hammingDistance, h]

/-- Witness for the amended C5 at a concrete mismatched pair. -/
theorem C5_amended_witness :
    ImageProcessor.hammingDistance [0] [0, 0] = .error "Hash lengths must be equal" ∧
    AdvancedImageMatcher.hammingDistance [0] [0, 0] = ⊤ :=
  C5_amended [0] [0, 0] (by decide)

/-- C6 counterexample: a failed canonicalization/hash generation is caught
inside both entry points; `findBestMatch` returns `null` and
`verifyImageMatch` returns the untouched all-unmatched report, each
indistinguishable from an ordinary no-match, instead of surfacing
`UnsupportedImageError` to the caller. -/
theorem C6_counterexample :
    ImageProcessor.findBestMatch (.error "unsupported image") [(h1, "obj-A")] 3 = none ∧
    AdvancedImageMatcher.verifyImageMatch (.error "unsupported image")
      (fun _ => .ok h1) [h1] = AdvancedImageMatcher.initResults :=
  ⟨rfl, rfl⟩

/-- C6 (amended): for every failed canonicalization, `findBestMatch` catches
the error and returns `null` (exactly the no-match result) and
`verifyImageMatch` catches it and returns the initial all-unmatched report;
no error is surfaced. -/
theorem C6_amended :
    (∀ (msg : String) (store : List (Fp × String)) (t : Nat),
      ImageProcessor.findBestMatch (.error msg) store t = none) ∧
    (∀ (msg : String) (rotHashE : Nat → Except String Fp) (stored : List Fp),
      AdvancedImageMatcher.verifyImageMatch (.error msg) rotHashE stored =
        AdvancedImageMatcher.initResults) :=
  ⟨fun _ _ _ => rfl, fun _ _ _ => rfl⟩

/-- C1 counterexample: at threshold 3 with a single stored record whose
primary-vs-primary distance is 5 (> 3), the claim demands an absent result
(no record is admissible), but `findBestMatch` returns a match: a variant
fingerprint of the candidate is at distance 1 and the variant path
(`threshold <= 3`) adopts it as the best match. -/
theorem C1_counterexample :
    ImageProcessor.hammingDistance cexBundle.primary h1 = .ok 5 ∧
    ImageProcessor.findBestMatch (.ok cexBundle) [(h1, "obj-B")] 3 =
      some ⟨"obj-B", 1, h1⟩ :=
  ⟨rfl, by decide⟩

/-- C1 (amended): whenever the threshold is above the strict cutoff 3 (so
that the variant path is disabled), `findBestMatch` returns the admissible
record (primary-vs-primary distance ≤ threshold) of smallest distance, ties
broken by the earliest-iterated record — stated via the store decomposition
`pre ++ (eh, oid) :: post` with every admissible record in `pre` strictly
farther and every admissible record in `post` at least as far — and returns
absent when no record is admissible.  At thresholds ≤ 3 the variant
comparisons can additionally produce a match (see the C1 counterexample and
C3).  The concrete scenario holds: for the query bundle whose primary is at
distance 2 from the sole stored fingerprint `h1` (and whose variant
fingerprints are all far from `h1`), threshold 3 yields
`{recordId:"obj-A", distance:2}` and threshold 1 yields absent. -/
theorem C1_amended :
    (∀ (p : Fp) (vs : List Fp) (t : Nat) (pre post : List (Fp × String)) (eh : Fp)
        (oid : String) (d : Nat),
      3 < t →
      ImageProcessor.hammingDistance p eh = .ok d → d ≤ t →
      (∀ q ∈ pre, ∀ dq, ImageProcessor.hammingDistance p (Prod.fst q) = .ok dq →
        dq ≤ t → d < dq) →
      (∀ q ∈ post, ∀ dq, ImageProcessor.hammingDistance p (Prod.fst q) = .ok dq →
        dq ≤ t → d ≤ dq) →
      (∀ q ∈ pre ++ (eh, oid) :: post, (Prod.fst q).length = p.length) →
      ImageProcessor.findBestMatch (.ok ⟨p, vs⟩) (pre ++ (eh, oid) :: post) t =
        some ⟨oid, d, eh⟩) ∧
    (∀ (p : Fp) (vs : List Fp) (t : Nat) (store : List (Fp × String)),
      3 < t →
      (∀ q ∈ store, (Prod.fst q).length = p.length) →
      (∀ q ∈ store, ∀ dq, ImageProcessor.hammingDistance p (Prod.fst q) = .ok dq →
        t < dq) →
      ImageProcessor.findBestMatch (.ok ⟨p, vs⟩) store t = none) ∧
    ImageProcessor.findBestMatch (.ok queryBundle) [(h1, "obj-A")] 3 =
      some ⟨"obj-A", 2, h1⟩ ∧
    ImageProcessor.findBestMatch (.ok queryBundle) [(h1, "obj-A")] 1 = none := by
  refine ⟨?_, ?_, by decide, by decide⟩
  · intro p vs t pre post eh oid d ht hd hdt hpre hpost hlen
    obtain ⟨hlep, hdsum⟩ := hammingDistance_ok_iff.mp hd
    subst hdsum
    have hlenpre : ∀ q ∈ pre, (Prod.fst q).length = p.length :=
      fun q hq => hlen q (List.mem_append_left _ hq)
    have hlenpost : ∀ q ∈ post, (Prod.fst q).length = p.length :=
      fun q hq => hlen q (List.mem_append_right _ (List.mem_cons_of_mem _ hq))
    have hpre2 : ∀ q ∈ pre, hammingSum p (Prod.fst q) ≤ t →
        hammingSum p eh < hammingSum p (Prod.fst q) := by
      intro q hq hle
      exact hpre q hq (hammingSum p (Prod.fst q))
        (hammingDistance_ok_of_len (hlenpre q hq).symm) hle
    have hpost2 : ∀ q ∈ post, hammingSum p (Prod.fst q) ≤ t →
        hammingSum p eh ≤ hammingSum p (Prod.fst q) := by
      intro q hq hle
      exact hpost q hq (hammingSum p (Prod.fst q))
        (hammingDistance_ok_of_len (hlenpost q hq).symm) hle
    have hloop := ImageProcessor.fbmLoop_finds p vs t ht eh oid post hlep.symm hdt
      hlenpost hpost2 pre ⊤ none hlenpre hpre2 (WithTop.coe_lt_top _)
    simp only [ImageProcessor.findBestMatch, hloop]
  · intro p vs t store ht hlen hfar
    have hloop := ImageProcessor.fbmLoop_no_update p vs t ht store ⊤ none hlen
      (fun q hq ha _ => absurd ha (not_le.mpr
        (hfar q hq (hammingSum p (Prod.fst q))
          (hammingDistance_ok_of_len (hlen q hq).symm))))
    simp only [ImageProcessor.findBestMatch, hloop]

/-- Witness for the amended C1 at threshold 4 with a singleton store. -/
theorem C1_amended_witness :
    ImageProcessor.findBestMatch (.ok ⟨queryPrimary, queryBundle.variants⟩)
      ([] ++ (h1, "obj-A") :: []) 4 = some ⟨"obj-A", 2, h1⟩ :=
  C1_amended.1 queryPrimary queryBundle.variants 4 [] [] h1 "obj-A" 2
    (by decide) rfl (by decide)
    (by intro q hq; exact absurd hq (List.not_mem_nil _))
    (by intro q hq; exact absurd hq (List.not_mem_nil _))
    (by decide)

/-- C3: variant fingerprints are compared only when the threshold is at most
3 and only against records whose primary-vs-primary distance exceeded the
threshold; a variant comparison becomes the new best match only when its
distance is ≤ threshold and strictly smaller than the current best; for
every call with threshold > 3, no variant fingerprint is ever compared. -/
theorem C3_variant_comparison_discipline :
    (∀ (primary : Fp) (variants : List Fp) (t : Nat) (store : List (Fp × String))
        (v h2 : Fp), 3 < t →
      ImageProcessor.CompEvent.variantCmp v h2 ∉
        ImageProcessor.fbmTrace primary variants t store) ∧
    (∀ (primary : Fp) (variants : List Fp) (t : Nat) (store : List (Fp × String))
        (v h2 : Fp),
      ImageProcessor.CompEvent.variantCmp v h2 ∈
        ImageProcessor.fbmTrace primary variants t store →
      t ≤ 3 ∧ v ∈ variants ∧ ∃ oid d0, (h2, oid) ∈ store ∧
        ImageProcessor.hammingDistance primary h2 = .ok d0 ∧ t < d0) ∧
    (∀ (eh : Fp) (oid : String) (t : Nat) (variants : List Fp) (bestD : WithTop Nat)
        (best : Option ImageProcessor.MatchResult),
      ImageProcessor.variantScan eh oid t variants (bestD, best) = (bestD, best) ∨
      ∃ v ∈ variants, ∃ d, ImageProcessor.hammingDistance v eh = .ok d ∧ d ≤ t ∧
        ((d : WithTop Nat) < bestD) ∧
        ImageProcessor.variantScan eh oid t variants (bestD, best) =
          ((d : WithTop Nat), some ⟨oid, d, eh⟩)) :=
  ⟨fun primary variants t store v h2 ht =>
      ImageProcessor.fbmTrace_no_variant primary variants t ht store v h2,
   fun primary variants t store v h2 hmem =>
      ImageProcessor.fbmTrace_variant_mem primary variants t store v h2 hmem,
   fun eh oid t variants bestD best =>
      ImageProcessor.variantScan_update eh oid t variants bestD best⟩

/-- Witness for C3: at threshold 12 no variant comparison appears in the
trace of a concrete call. -/
theorem C3_witness :
    ImageProcessor.CompEvent.variantCmp farVariant h1 ∉
      ImageProcessor.fbmTrace queryPrimary queryBundle.variants 12 [(h1, "obj-A")] :=
  C3_variant_comparison_discipline.1 queryPrimary queryBundle.variants 12
    [(h1, "obj-A")] farVariant h1 (by decide)

/-- C2 counterexample: a first-stored-hash direct hit produces the method
string `"direct_phash"`, not `"direct"` as the claim states (the caller at
the API layer likewise tests `overall.method === 'direct_phash'`). -/
theorem C2_counterexample :
    (AdvancedImageMatcher.verifyImageMatch (.ok genuineFp) (fun _ => .ok genuineFp)
        [genuineFp]).overall =
      { matched := true, confidence := 95/100, method := "direct_phash" } ∧
    "direct_phash" ≠ "direct" :=
  ⟨rfl, by decide⟩

/-- C2 (amended): the verifier evaluates its stages in order with
short-circuit.  Direct stage: the query's primary fingerprint is compared
against every stored fingerprint in store order; the first one at distance
≤ 3 yields a matched result with confidence 0.95 and method `direct_phash`,
and the rotation stage never runs (the result is independent of the
rotated-hash generator, which is universally quantified and absent from the
right-hand side).  Rotation stage (only if the direct stage found nothing):
for each angle of {5,10,15,30,45,90,180,270,345,350,355} in order, the
rotated fingerprint is scanned against all stored fingerprints; the first
angle-record pair at distance ≤ 8 yields a matched result with confidence
0.85 and method `rotation_phash`. -/
theorem C2_amended :
    (∀ (q : Fp) (rotHashE : Nat → Except String Fp) (pre post : List Fp) (h : Fp),
      (∀ h2 ∈ pre, ¬(AdvancedImageMatcher.hammingDistance q h2 ≤ 3)) →
      AdvancedImageMatcher.hammingDistance q h ≤ 3 →
      AdvancedImageMatcher.verifyImageMatch (.ok q) rotHashE (pre ++ h :: post) =
        { AdvancedImageMatcher.initResults with
            stage1_phash :=
              { matched := true,
                distance := AdvancedImageMatcher.hammingDistance q h,
                confidence := 95/100 },
            overall :=
              { matched := true, confidence := 95/100, method := "direct_phash" } }) ∧
    (∀ (q : Fp) (rotHashE : Nat → Except String Fp) (stored : List Fp)
        (aPre aPost : List Nat) (angle : Nat) (rh : Fp) (hPre hPost : List Fp) (h : Fp),
      (∀ h2 ∈ stored, ¬(AdvancedImageMatcher.hammingDistance q h2 ≤ 3)) →
      AdvancedImageMatcher.rotationAngles = aPre ++ angle :: aPost →
      (∀ a2 ∈ aPre, ∃ rh2, rotHashE a2 = .ok rh2 ∧
        ∀ h2 ∈ stored, ¬(AdvancedImageMatcher.hammingDistance rh2 h2 ≤ 8)) →
      rotHashE angle = .ok rh →
      stored = hPre ++ h :: hPost →
      (∀ h2 ∈ hPre, ¬(AdvancedImageMatcher.hammingDistance rh h2 ≤ 8)) →
      AdvancedImageMatcher.hammingDistance rh h ≤ 8 →
      (AdvancedImageMatcher.verifyImageMatch (.ok q) rotHashE stored).overall =
        { matched := true, confidence := 85/100, method := "rotation_phash" } ∧
      (AdvancedImageMatcher.verifyImageMatch (.ok q) rotHashE stored).stage2_rotation =
        { matched := true,
          distance := AdvancedImageMatcher.hammingDistance rh h,
          confidence := 85/100 }) := by
  constructor
  · intro q rotHashE pre post h hpre hhit
    have hs1 := AdvancedImageMatcher.stage1Scan_hit q h post hhit pre ⊤ hpre
    simp only [AdvancedImageMatcher.verifyImageMatch, hs1]
  · intro q rotHashE stored aPre aPost angle rh hPre hPost h hall3 hangles hskip hf hsplit
      hpre8 hhit
    obtain ⟨m1, hm1⟩ := AdvancedImageMatcher.stage1Scan_allfail q stored ⊤ hall3
    have hs2 := AdvancedImageMatcher.stage2Angles_hit rotHashE stored angle aPost rh
      hPre hPost h hf hsplit hpre8 hhit aPre ⊤ hskip
    rw [← hangles] at hs2
    simp only [AdvancedImageMatcher.verifyImageMatch, hm1, hs2]
    exact ⟨trivial, trivial⟩

/-- Witness for the amended C2: a direct hit on a singleton store. -/
theorem C2_amended_witness :
    AdvancedImageMatcher.verifyImageMatch (.ok genuineFp) (fun _ => .ok genuineFp)
      ([] ++ genuineFp :: []) =
      { AdvancedImageMatcher.initResults with
          stage1_phash :=
            { matched := true,
              distance := AdvancedImageMatcher.hammingDistance genuineFp genuineFp,
              confidence := 95/100 },
          overall :=
            { matched := true, confidence := 95/100, method := "direct_phash" } } :=
  C2_amended.1 genuineFp (fun _ => .ok genuineFp) [] [] genuineFp
    (by intro h2 hh2; exact absurd hh2 (List.not_mem_nil _)) (by decide)

/-- C7 counterexample: when the primary hash is the all-zero value, the
sha256-derived fallback becomes the primary fingerprint with no marker of
any kind, and `findBestMatch` compares it primary-vs-primary against the
stored genuine fingerprint — the cross-matching the claim says never
happens. -/
theorem C7_counterexample :
    ImageProcessor.generateRobustPHashFromBuffer (.ok ImageProcessor.allZeroHash)
      (fun _ => .ok ImageProcessor.allZeroHash) (fun _ => .ok ImageProcessor.allZeroHash)
      (.ok fallbackFp) = .ok c7Bundle ∧
    c7Bundle.primary = fallbackFp ∧
    ImageProcessor.CompEvent.primaryCmp fallbackFp genuineFp ∈
      ImageProcessor.fbmTrace c7Bundle.primary c7Bundle.variants 3 [(genuineFp, "obj-G")] :=
  ⟨rfl, rfl, by decide⟩

/-- C7 (amended): the fallback fingerprint is not marked; whenever the
fallback path fires it becomes the bundle's primary and `findBestMatch`
compares it primary-vs-primary against every stored fingerprint exactly as
it would a genuine perceptual fingerprint. -/
theorem C7_amended (rotHashE : Nat → Except String Fp) (scaleHashE : ℚ → Except String Fp)
    (fb : Fp) (bundle : ImageProcessor.HashBundle) (store : List (Fp × String)) (t : Nat)
    (hgen : ImageProcessor.generateRobustPHashFromBuffer (.ok ImageProcessor.allZeroHash)
      rotHashE scaleHashE (.ok fb) = .ok bundle)
    (hlen : ∀ q ∈ store, (Prod.fst q).length = fb.length) :
    bundle.primary = fb ∧
    ∀ g oid, (g, oid) ∈ store →
      ImageProcessor.CompEvent.primaryCmp fb g ∈
        ImageProcessor.fbmTrace bundle.primary bundle.variants t store := by
  have hb : bundle.primary = fb := by
    cases hrot : ImageProcessor.genHashes rotHashE ImageProcessor.variantRotationAngles with
    | error e =>
      simp only [ImageProcessor.generateRobustPHashFromBuffer, hrot] at hgen
      exact Except.noConfusion hgen
    | ok rs =>
      cases hsc : ImageProcessor.genHashes scaleHashE ImageProcessor.variantScaleFactors with
      | error e =>
        simp only [ImageProcessor.generateRobustPHashFromBuffer, hrot, hsc] at hgen
        exact Except.noConfusion hgen
      | ok ss =>
        simp only [ImageProcessor.generateRobustPHashFromBuffer, hrot, hsc,
          eq_self_iff_true, if_true, Except.ok.injEq] at hgen
        rw [← hgen]
  refine ⟨hb, ?_⟩
  intro g oid hmem
  rw [hb]
  exact ImageProcessor.fbmTrace_compares_primary fb bundle.variants t store hlen g oid hmem

/-- Witness for the amended C7 at the concrete fallback run of the C7
counterexample. -/
theorem C7_amended_witness :
    c7Bundle.primary = fallbackFp ∧
    ∀ g oid, (g, oid) ∈ [(genuineFp, "obj-G")] →
      ImageProcessor.CompEvent.primaryCmp fallbackFp g ∈
        ImageProcessor.fbmTrace c7Bundle.primary c7Bundle.variants 3 [(genuineFp, "obj-G")] :=
  C7_amended (fun _ => .ok ImageProcessor.allZeroHash)
    (fun _ => .ok ImageProcessor.allZeroHash) fallbackFp c7Bundle
    [(genuineFp, "obj-G")] 3 rfl (by decide)

/-- C8 counterexample: a single rotation variant failing to decode makes the
whole `generateRobustPHashFromBuffer` call fail (the error propagates out of
the variant loop to the outer catch, which rethrows); the bundle is not
produced with the variant omitted. -/
theorem C8_counterexample :
    ImageProcessor.generateRobustPHashFromBuffer (.ok genuineFp)
      (fun a => if a = 90 then .error "variant decode failed" else .ok genuineFp)
      (fun _ => .ok genuineFp) (.ok fallbackFp) = .error "variant decode failed" :=
  rfl

/-- C8 (amended): if generating any one variant fingerprint — one rotation or
one scale — fails, the whole bundle generation fails: no bundle is returned
at all (the per-comparison catches exist only in `findBestMatch`, not in
generation). -/
theorem C8_amended (o : Fp) (rotHashE : Nat → Except String Fp)
    (scaleHashE : ℚ → Except String Fp) (fallbackHashE : Except String Fp)
    (hfail :
      (∃ a ∈ ImageProcessor.variantRotationAngles, ∃ msg, rotHashE a = .error msg) ∨
      (∃ sc ∈ ImageProcessor.variantScaleFactors, ∃ msg, scaleHashE sc = .error msg)) :
    ∀ b, ImageProcessor.generateRobustPHashFromBuffer (.ok o) rotHashE scaleHashE
      fallbackHashE ≠ .ok b := by
  intro b hok
  cases hrot : ImageProcessor.genHashes rotHashE ImageProcessor.variantRotationAngles with
  | error e =>
    simp only [ImageProcessor.generateRobustPHashFromBuffer, hrot] at hok
    exact Except.noConfusion hok
  | ok rs =>
    rcases hfail with ⟨a, ha, msg, herr⟩ | ⟨sc, hsc, msg, herr⟩
    · exact ImageProcessor.genHashes_error rotHashE
        ImageProcessor.variantRotationAngles a ha msg herr rs hrot
    · cases hscale : ImageProcessor.genHashes scaleHashE ImageProcessor.variantScaleFactors with
      | error e =>
        simp only [ImageProcessor.generateRobustPHashFromBuffer, hrot, hscale] at hok
        exact Except.noConfusion hok
      | ok ss =>
        exact ImageProcessor.genHashes_error scaleHashE
          ImageProcessor.variantScaleFactors sc hsc msg herr ss hscale

/-- Witness for the amended C8: a concrete failing-rotation run and a
concrete failing-scale run, neither of which can produce any bundle. -/
theorem C8_amended_witness :
    (ImageProcessor.generateRobustPHashFromBuffer (.ok genuineFp)
      (fun a => if a = 90 then .error "variant decode failed" else .ok genuineFp)
      (fun _ => .ok genuineFp) (.ok fallbackFp) ≠ .ok c7Bundle) ∧
    (ImageProcessor.generateRobustPHashFromBuffer (.ok genuineFp)
      (fun _ => .ok genuineFp)
      (fun _ => .error "scale decode failed") (.ok fallbackFp) ≠ .ok c7Bundle) :=
  ⟨C8_amended genuineFp
      (fun a => if a = 90 then .error "variant decode failed" else .ok genuineFp)
      (fun _ => .ok genuineFp) (.ok fallbackFp)
      (Or.inl ⟨90, by decide, "variant decode failed", rfl⟩) c7Bundle,
   C8_amended genuineFp
      (fun _ => .ok genuineFp)
      (fun _ => .error "scale decode failed") (.ok fallbackFp)
      (Or.inr ⟨9/10, List.mem_cons_self _ _, "scale decode failed", rfl⟩) c7Bundle⟩

/-- C9 counterexample: called with an empty store, `verifyImageMatch` does
report `overall.matched = false`, but it is not immediate: the rotation
stage still computes a rotated fingerprint for every one of the 11 probe
angles (the store-scan inner loops are merely empty). -/
theorem C9_counterexample :
    AdvancedImageMatcher.verifyRotationTrace (.ok genuineFp) (fun _ => .ok genuineFp) [] =
      AdvancedImageMatcher.rotationAngles ∧
    AdvancedImageMatcher.rotationAngles.length = 11 ∧
    (AdvancedImageMatcher.verifyImageMatch (.ok genuineFp) (fun _ => .ok genuineFp)
      []).overall.matched = false :=
  ⟨rfl, rfl, rfl⟩

/-- C9 (amended): the immediate empty-store short-circuit lives in the
`/api/verify` route, which answers `verified:false` without invoking the
verifier at all; `verifyImageMatch` itself, if called on an empty store,
still returns `overall.matched = false` but first computes one rotated
fingerprint per probe angle. -/
theorem C9_amended :
    (∀ (inputHashE : Except String Fp) (rotHashE : Nat → Except String Fp),
      AdvancedImageMatcher.apiVerify [] inputHashE rotHashE = (false, none)) ∧
    (∀ (inputHash : Fp) (rotHashE : Nat → Except String Fp),
      (AdvancedImageMatcher.verifyImageMatch (.ok inputHash) rotHashE
        []).overall.matched = false) ∧
    (∀ (inputHash : Fp) (rotGen : Nat → Fp),
      AdvancedImageMatcher.verifyRotationTrace (.ok inputHash)
        (fun a => .ok (rotGen a)) [] = AdvancedImageMatcher.rotationAngles) := by
  refine ⟨fun _ _ => rfl, ?_, fun _ _ => rfl⟩
  intro q f
  obtain ⟨m, hm⟩ := AdvancedImageMatcher.stage2Angles_empty_store f
    AdvancedImageMatcher.rotationAngles ⊤
  have hv : AdvancedImageMatcher.verifyImageMatch (.ok q) f [] =
      { AdvancedImageMatcher.initResults with
          stage1_phash := { matched := false, distance := ⊤, confidence := 0 },
          stage2_rotation := { matched := false, distance := m, confidence := 0 } } := by
    simp only [AdvancedImageMatcher.verifyImageMatch, AdvancedImageMatcher.stage1Scan, hm]
  rw [hv]
  rfl

/-- C10: the overall verdict is matched exactly when the method is
`direct_phash` (confidence 0.95, stage-1 matched) or `rotation_phash`
(confidence 0.85, stage-2 matched); otherwise the overall field is the
untouched `{matched:false, confidence:0, method:"none"}`; the color and edge
stage reports are never marked matched and never change from their initial
values. -/
theorem C10_overall_report_invariant (inputHashE : Except String Fp)
    (rotHashE : Nat → Except String Fp) (storedHashes : List Fp) :
    ((AdvancedImageMatcher.verifyImageMatch inputHashE rotHashE
        storedHashes).overall.matched = true ↔
      (((AdvancedImageMatcher.verifyImageMatch inputHashE rotHashE
          storedHashes).overall.method = "direct_phash" ∧
        (AdvancedImageMatcher.verifyImageMatch inputHashE rotHashE
          storedHashes).overall.confidence = 95/100 ∧
        (AdvancedImageMatcher.verifyImageMatch inputHashE rotHashE
          storedHashes).stage1_phash.matched = true) ∨
       ((AdvancedImageMatcher.verifyImageMatch inputHashE rotHashE
          storedHashes).overall.method = "rotation_phash" ∧
        (AdvancedImageMatcher.verifyImageMatch inputHashE rotHashE
          storedHashes).overall.confidence = 85/100 ∧
        (AdvancedImageMatcher.verifyImageMatch inputHashE rotHashE
          storedHashes).stage2_rotation.matched = true))) ∧
    ((AdvancedImageMatcher.verifyImageMatch inputHashE rotHashE
        storedHashes).overall.matched = false →
      (AdvancedImageMatcher.verifyImageMatch inputHashE rotHashE
        storedHashes).overall =
        { matched := false, confidence := 0, method := "none" }) ∧
    (AdvancedImageMatcher.verifyImageMatch inputHashE rotHashE
      storedHashes).stage3_color = AdvancedImageMatcher.initResults.stage3_color ∧
    (AdvancedImageMatcher.verifyImageMatch inputHashE rotHashE
      storedHashes).stage4_edge = AdvancedImageMatcher.initResults.stage4_edge := by
  cases inputHashE with
  | error e =>
    have hv : AdvancedImageMatcher.verifyImageMatch (.error e) rotHashE storedHashes =
        AdvancedImageMatcher.initResults := rfl
    rw [hv]
    refine ⟨iff_of_false (by decide) ?_, fun _ => rfl, rfl, rfl⟩
    rintro (⟨hme, _⟩ | ⟨hme, _⟩) <;> exact absurd hme (by decide)
  | ok q =>
    cases hs1 : AdvancedImageMatcher.stage1Scan q storedHashes ⊤ with
    | inl pr =>
      obtain ⟨s1, ov⟩ := pr
      obtain ⟨d, hd3, hseq, hoveq⟩ :=
        AdvancedImageMatcher.stage1Scan_inl q storedHashes ⊤ s1 ov hs1
      subst hseq; subst hoveq
      have hv : AdvancedImageMatcher.verifyImageMatch (.ok q) rotHashE storedHashes =
          { AdvancedImageMatcher.initResults with
              stage1_phash := { matched := true, distance := d, confidence := 95/100 },
              overall :=
                { matched := true, confidence := 95/100, method := "direct_phash" } } := by
        simp only [AdvancedImageMatcher.verifyImageMatch, hs1]
      rw [hv]
      exact ⟨iff_of_true rfl (Or.inl ⟨rfl, rfl, rfl⟩),
        fun hcontra => Bool.noConfusion hcontra, rfl, rfl⟩
    | inr m1 =>
      cases hs2 : AdvancedImageMatcher.stage2Angles rotHashE storedHashes
          AdvancedImageMatcher.rotationAngles ⊤ with
      | inl pr =>
        obtain ⟨s2, ov⟩ := pr
        obtain ⟨d, hd8, hseq, hoveq⟩ :=
          AdvancedImageMatcher.stage2Angles_inl rotHashE storedHashes
            AdvancedImageMatcher.rotationAngles ⊤ s2 ov hs2
        subst hseq; subst hoveq
        have hv : AdvancedImageMatcher.verifyImageMatch (.ok q) rotHashE storedHashes =
            { AdvancedImageMatcher.initResults with
                stage1_phash := { matched := false, distance := m1, confidence := 0 },
                stage2_rotation := { matched := true, distance := d, confidence := 85/100 },
                overall :=
                  { matched := true, confidence := 85/100, method := "rotation_phash" } } := by
          simp only [AdvancedImageMatcher.verifyImageMatch, hs1, hs2]
        rw [hv]
        exact ⟨iff_of_true rfl (Or.inr ⟨rfl, rfl, rfl⟩),
          fun hcontra => Bool.noConfusion hcontra, rfl, rfl⟩
      | inr m2 =>
        have hv : AdvancedImageMatcher.verifyImageMatch (.ok q) rotHashE storedHashes =
            { AdvancedImageMatcher.initResults with
                stage1_phash := { matched := false, distance := m1, confidence := 0 },
                stage2_rotation := { matched := false, distance := m2, confidence := 0 } } := by
          simp only [AdvancedImageMatcher.verifyImageMatch, hs1, hs2]
        rw [hv]
        refine ⟨iff_of_false (fun h => Bool.noConfusion h) ?_, fun _ => rfl, rfl, rfl⟩
        rintro (⟨hme, _⟩ | ⟨hme, _⟩) <;> simp [AdvancedImageMatcher.initResults] at hme
